import Mathlib

/-!
Verification development for the unit-normalization module
(pyLaserPulse/units_utils.py).

The module is shallow-embedded over the reals: numeric scales and powers of
the source become real numbers, log10 becomes Real.logb 10, floor becomes
Int.floor, and functions that can raise become Except-valued.  Units of the
collaborator library (astropy.units) are modelled structurally: a named unit
is determined by its name string (optionally an SI prefix), mirroring the
collaborator's global registry; a composite unit is a scalar times a list of
(base, power) pairs.  The collaborator's physical-type classification is
modelled only as far as the source consults it: "s" is time, "Hz" is
frequency, attosecond is time, and every other name is left unclassified
(the source only ever compares physical types against time/frequency and
only acts further when the name is "s" or "Hz", so this coarse registry
gives the same outcomes).
-/

noncomputable section

open scoped Classical

/-- Physical dimension classification, as far as the source consults it. -/
inductive PhysType where
  | time
  | frequency
  | other
deriving DecidableEq

/-- The collaborator registry's physical type for an unprefixed unit symbol.
Only "s" and "Hz" are classified; the source consults the classification
only to compare against time/frequency. -/
def symPhysType (sym : String) : PhysType :=
  if sym = "s" then .time else if sym = "Hz" then .frequency else .other

/-- A named (non-composite) unit of the collaborator library.
A PrefixUnit carries an SI prefix (one of the 16, stored as its index into
the prefix string) and the unprefixed symbol; its display name is the
prefix character followed by the symbol.  attosecond is a PrefixUnit in the
collaborator library but its name is the full word "attosecond", so it is
kept as a distinguished constructor (the source special-cases it for the
same reason). -/
inductive NamedUnit where
  | base (name : String)
  | pre (idx : Fin 16) (sym : String)
  | attosecond
deriving DecidableEq

-- source: si_prefixes = 'yzafpnumkMGTPEZY'
def si_prefixes : List Char := "yzafpnumkMGTPEZY".toList

-- source: si_exponents = tuple(x for x in range(-24, 25, 3) if x != 0)
def si_exponents : List ℤ :=
  ((List.range 17).map (fun n => -24 + 3 * (n : ℤ))).filter (fun x => x ≠ 0)

def attosecond_exponent : ℤ := -18

/-- The character of the i-th SI prefix. -/
def prefChar (i : Fin 16) : Char := si_prefixes.get (Fin.cast (by decide) i)

/-- The exponent of the i-th SI prefix. -/
def prefExpon (i : Fin 16) : ℤ := si_exponents.get (Fin.cast (by decide) i)

/-- Index of a character in the SI prefix string, if present. -/
def charToFin (c : Char) : Option (Fin 16) :=
  if h : si_prefixes.indexOf c < 16 then some ⟨si_prefixes.indexOf c, h⟩ else none

-- source: prefix_map = {pref: exp for (pref, exp) in zip(si_prefixes, si_exponents)}
def prefix_map : List (Char × ℤ) := si_prefixes.zip si_exponents

-- source: exponent_map = {exp: pref for (pref, exp) in prefix_map.items()}
def exponent_map : List (ℤ × Char) := prefix_map.map (fun pe => (pe.2, pe.1))

/-- source pref_to_expon: exponent of a given SI prefix; a lookup miss is the
ValueError branch, modelled as none. -/
def pref_to_expon (pref : Char) : Option ℤ := prefix_map.lookup pref

/-- source expon_to_pref: SI prefix corresponding to a given exponent; a
lookup miss is the ValueError branch, modelled as none. -/
def expon_to_pref (expon : ℤ) : Option Char := exponent_map.lookup expon

/-- source flip_prefix: returns 1/prefix by reversing the index in the prefix
string.  The source indexes si_prefixes[len-1-find(pref)], which raises for
a character not in the string (find gives -1); that case is unreachable from
the call sites and is modelled with a default. -/
def flip_pref (pref : Char) : Char :=
  si_prefixes.getD (si_prefixes.length - 1 - si_prefixes.indexOf pref) 'y'

/-- Display name of a named unit (the collaborator's .name attribute). -/
def NamedUnit.name : NamedUnit → String
  | .base n => n
  | .pre i sym => String.mk [prefChar i] ++ sym
  | .attosecond => "attosecond"

/-- Physical type of a named unit, per the modelled registry. -/
def NamedUnit.ptype : NamedUnit → PhysType
  | .base n => symPhysType n
  | .pre _ sym => symPhysType sym
  | .attosecond => .time

/-- isinstance(_, PrefixUnit): attosecond is a PrefixUnit in the collaborator
library even though its name is not prefix-shaped. -/
def isPrefixUnit : NamedUnit → Bool
  | .base _ => false
  | .pre _ _ => true
  | .attosecond => true

def second : NamedUnit := .base "s"
def hertz : NamedUnit := .base "Hz"
def meter : NamedUnit := .base "m"
def gram : NamedUnit := .base "g"
def kilogram : NamedUnit := .base "kg"
def centimeter : NamedUnit := .base "cm"
def ampere : NamedUnit := .base "A"
def exahertz : NamedUnit := .pre ⟨13, by omega⟩ "Hz"
def kilometer : NamedUnit := .pre ⟨8, by omega⟩ "m"

/-- Model of the collaborator's unit lookup for a name built as SI prefix
character plus unprefixed symbol (units.Unit(new_prefix + sym)).  Exact
registered names win over prefix parsing: "as" is the distinguished
attosecond unit and "kg" is the kilogram (an irreducible unit, not a
PrefixUnit).  A character outside the prefix string cannot reach this
lookup from the call sites; it falls back to a plain named unit. -/
def mkPrefUnit (c : Char) (sym : String) : NamedUnit :=
  if String.mk [c] ++ sym = "as" then .attosecond
  else if String.mk [c] ++ sym = "kg" then kilogram
  else match charToFin c with
    | some i => .pre i sym
    | none => .base (String.mk [c] ++ sym)

-- source is_close: abs(x - y) <= atol + rtol * abs(y)
def is_close (x y rtol atol : ℝ) : Prop := |x - y| ≤ atol + rtol * |y|

-- source is_unity: is_close(x, 1) with rtol=1e-6, atol=1e-10
def is_unity (x : ℝ) : Prop := is_close x 1 (1e-6) (1e-10)

-- source is_time_freq: physical_type is time or frequency
def is_time_freq (x : NamedUnit) : Prop := x.ptype = .time ∨ x.ptype = .frequency

instance (x : NamedUnit) : Decidable (is_time_freq x) := by
  unfold is_time_freq; infer_instance

/-- A unit expression of the collaborator library: either a named unit or a
CompositeUnit (a scalar times a list of (base, power) pairs, where a base
may itself be composite). -/
inductive UnitExpr where
  | named (u : NamedUnit)
  | comp (scale : ℝ) (bases : List UnitExpr) (powers : List ℝ)

/-- The collaborator's .scale attribute: 1 on named units. -/
def UnitExpr.scale : UnitExpr → ℝ
  | .named _ => 1
  | .comp s _ _ => s

/-- The collaborator's .bases attribute: a named unit is its own sole base. -/
def UnitExpr.bases : UnitExpr → List UnitExpr
  | .named u => [.named u]
  | .comp _ b _ => b

/-- The collaborator's .powers attribute: [1] on named units. -/
def UnitExpr.powers : UnitExpr → List ℝ
  | .named _ => [1]
  | .comp _ _ p => p

/-- Errors the source can raise.  typeError is the contract error of
opt_single_base; valueError is raised by the prefix/exponent lookups;
indexError is an unguarded list indexing; attributeError is an access to a
missing attribute (a CompositeUnit has no .name). -/
inductive UErr where
  | typeError
  | valueError
  | indexError
  | attributeError
deriving DecidableEq

/-- source fixhertz_item: replaces (1/s -> Hertz) and (1/Hertz -> second) in
a named unit.  A composite base is never equal to a named unit in this
model and is left unchanged (the source reaches the same outcomes: its name
checks only fire on "s"/"Hz"-named units). -/
def fixhertz_item (base : UnitExpr) (pwr : ℝ) : UnitExpr × ℝ :=
  match base with
  | .comp _ _ _ => (base, pwr)
  | .named u =>
    if 0 ≤ pwr ∨ ¬ is_time_freq u then (base, pwr)
    else if ¬ isPrefixUnit u then
      (if u = second then (.named hertz, -pwr)
       else if u = hertz then (.named second, -pwr)
       else (base, pwr))
    -- from now dealing with prefix units
    else if u = .attosecond then (.named exahertz, -pwr)
    else
      match u with
      | .pre i sym =>
        -- prefix, base_name = base.name[0], base.name[1:]
        let new_pref := flip_pref (prefChar i)
        if sym = "s" then (.named (mkPrefUnit new_pref "Hz"), -pwr)
        else if sym = "Hz" then (.named (mkPrefUnit new_pref "s"), -pwr)
        else (base, pwr)
      | _ => (base, pwr)   -- unreachable: non-attosecond PrefixUnits are pre

/-- source fixhertz_comp: applies fixhertz_item over the (base, power) pairs
of a composite unit; an empty pair list is returned unchanged; a single
pair with scale and power close to 1 is unwrapped to the bare base. -/
def fixhertz_comp (u2 : UnitExpr) : UnitExpr :=
  match List.zipWith fixhertz_item u2.bases u2.powers with
  | [] => u2   -- return dimensionless units unchanged
  | (b, p) :: rest =>
    if is_unity u2.scale ∧ rest = [] ∧ is_unity p then b
    else .comp u2.scale ((b, p) :: rest).unzip.1 ((b, p) :: rest).unzip.2

/-- Numeric payload of a quantity: a scalar or an array of reals. -/
inductive Payload where
  | scalar (x : ℝ)
  | array (xs : List ℝ)

/-- A quantity of the collaborator library: payload plus unit. -/
structure QuantityV where
  value : Payload
  unit : UnitExpr

/-- An input of the module's public entry points: a plain number, a unit, or
a quantity. -/
inductive PyVal where
  | num (x : ℝ)
  | unit (u : UnitExpr)
  | quant (q : QuantityV)

/-- source fixhertz: replaces 1/s with Hertz in units and quantities; plain
numbers and named units are returned unchanged. -/
def fixhertz (x : PyVal) : PyVal :=
  match x with
  | .quant q => .quant ⟨q.value, fixhertz_comp q.unit⟩
  | .unit u =>
    match u with
    | .comp _ _ _ => .unit (fixhertz_comp u)
    | .named _ => x
  | .num _ => x

/-- Lines 128-140 of opt_single_base: determine (unit_name, current exponent)
from the single base.  The prefix lookup's ValueError branch is kept
although it is unreachable (the stored prefix index is always in the
table). -/
def detNameExpon (unit : NamedUnit) : Except UErr (String × ℤ) :=
  -- in astropy.units attosecond cannot be abbreviated
  if unit = .attosecond then .ok ("s", attosecond_exponent)
  -- in astropy.units kilogram is not PrefixUnit
  else if unit = kilogram then .ok ("g", 3)
  -- centimeter is not a PrefixUnit
  else if unit = centimeter then .ok ("m", -2)
  else
    match unit with
    | .pre i sym =>
      match pref_to_expon (prefChar i) with
      | some e => .ok (sym, e)
      | none => .error .valueError   -- unreachable: prefChar is in the table
    | .base n => .ok (n, 0)
    | .attosecond => .ok ("s", attosecond_exponent)   -- already handled above

/-- source opt_single_base: optimizes a composite unit with a single base.
A non-composite argument and a composite with more than one base raise
TypeError; an empty base list slips past the guard and the bases[0] access
raises IndexError instead.  A composite first base equals none of the
special named units in this model, is not a PrefixUnit, and has no .name
attribute.  With a zero scale the source's log10 emits -inf and the clamp
lands at -24; the model's Real.logb gives junk there instead, so claims
about this function assume a nonzero scale. -/
def opt_single_base (simple_unit : UnitExpr) : Except UErr UnitExpr :=
  match simple_unit with
  | .named _ => .error .typeError    -- opt_single_base expects a CompositeUnit
  | .comp scale bases powers =>
    if bases.length > 1 then .error .typeError  -- expects CompositeUnit with 1 base
    else
      let sign : ℝ := if 0 ≤ scale then 1 else -1
      let value : ℝ := |scale|
      match bases with
      | [] => .error .indexError     -- simple_unit.bases[0]
      | ub :: _ =>
        match ub with
        | .comp _ _ _ => .error .attributeError
        | .named unit =>
          match detNameExpon unit with
          | .error e => .error e
          | .ok (unit_name, expon) =>
            match powers with
            | [] => .error .indexError   -- simple_unit.powers[0]
            | pwr :: _ =>
              let new_expon : ℤ :=
                min 24 (max (-24)
                  (3 * ⌊((expon : ℝ) + Real.logb 10 (value ^ (1 / pwr))) / 3⌋))
              let new_value : ℝ :=
                value * (10 : ℝ) ^ ((expon : ℝ) * pwr - (new_expon : ℝ) * pwr)
              -- new_prefix = expon_to_pref(new_expon) if new_expon != 0 else ''
              if new_expon = 0 then
                -- new_unit_name = unit_name; 'as' is special-cased back to attosecond
                .ok (.comp (sign * new_value)
                     [.named (if unit_name = "as" then .attosecond else .base unit_name)]
                     [pwr])
              else
                match expon_to_pref new_expon with
                | none => .error .valueError
                | some c =>
                  -- new_unit_name = new_prefix + unit_name; mkPrefUnit folds in the
                  -- source's 'as' special case and the collaborator's Unit lookup
                  .ok (.comp (sign * new_value) [.named (mkPrefUnit c unit_name)] [pwr])

/-- source opt_named_unit: named units need no optimization (scale is 1). -/
def opt_named_unit (unit : NamedUnit) : NamedUnit := unit

/-- Modelled from the spec (§6): the collaborator library's decomposition
operation, which expands a composite base into a flat list of (base, power)
pairs — the repository calls astropy's UnitBase.decompose, which is not part
of this repository.  The result is a scale together with named bases and
their powers; nested composite bases are expanded recursively, their scales
folded into the overall scale. -/
def decompose : UnitExpr → ℝ × List NamedUnit × List ℝ
  | .named u => (1, [u], [1])
  | .comp s bs ps =>
    let subs := (bs.zip ps).attach.map
      (fun x =>
        let d := decompose x.1.1
        (d.1 ^ x.1.2, d.2.1, d.2.2.map (fun q => q * x.1.2)))
    (s * (subs.map (fun y => y.1)).prod,
     (subs.map (fun y => y.2.1)).flatten,
     (subs.map (fun y => y.2.2)).flatten)
decreasing_by
  have h1 := List.sizeOf_lt_of_mem ((List.of_mem_zip x.2).1)
  simp only [UnitExpr.comp.sizeOf_spec]
  exact lt_of_lt_of_le h1 (by omega)

/-- source opt_comp_units: optimizes a CompositeUnit by optimizing only its
first base; pairs after the first are appended unchanged.  In the source the
nested-composite first-base branch recurses on a single-pair composite built
from the decomposition; since the decomposed bases are named units, that
recursive call always lands in the named-first-base arm, which is inlined
here (with the appended empty tails of that call's return written out) to
keep the definition non-recursive. -/
def opt_comp_units (unit : UnitExpr) : Except UErr UnitExpr :=
  match unit.bases with
  | [] => .error .indexError      -- unit.bases[0]
  | b0 :: rest =>
    match b0 with
    | .comp cs cb cp =>
      match unit.powers with
      | [] => .error .indexError  -- unit.powers[0]
      | p0 :: prest =>
        let dec := decompose (.comp cs cb cp)
        match dec.2.1, dec.2.2 with
        | d0 :: drest, dp0 :: dprest =>
          -- sub_base = CompositeUnit(unit.scale, dec.bases[0], dec.powers[0]*unit.powers[0])
          let sub_base : UnitExpr := .comp unit.scale [.named d0] [dp0 * p0]
          -- opt_sub_base = opt_comp_units(sub_base), inlined (named first base)
          match opt_single_base sub_base with
          | .error e => .error e
          | .ok osb =>
            let opt_sub_base : UnitExpr :=
              .comp osb.scale (osb.bases ++ []) (osb.powers ++ [])
            let new_base : UnitExpr :=
              .comp opt_sub_base.scale
                (opt_sub_base.bases ++ drest.map UnitExpr.named)
                (opt_sub_base.powers ++ dprest)
            .ok (.comp new_base.scale (new_base.bases ++ rest) (new_base.powers ++ prest))
        | _, _ => .error .indexError   -- dec_base.bases[0] / dec_base.powers[0]
    | .named nu =>
      match unit.powers with
      | [] => .error .indexError  -- unit.powers[0]
      | p0 :: prest =>
        let temp_base : UnitExpr := .comp unit.scale [.named nu] [p0]
        match opt_single_base temp_base with
        | .error e => .error e
        | .ok new_base =>
          .ok (.comp new_base.scale (new_base.bases ++ rest) (new_base.powers ++ prest))

/-- Mean over a payload, as the source computes it: np.mean of the absolute
element values for an array, and the caught-TypeError fallback (the raw
value) for a scalar.  np.mean of an empty array is nan in the source; the
model's 0/0 = 0 convention differs there, so claims about array quantities
assume a nonempty array. -/
def payMean : Payload → ℝ
  | .scalar x => x
  | .array xs => ((xs.map (fun x => |x|)).sum) / xs.length

/-- Elementwise division of a payload by a scalar (value / mean_value). -/
def payDiv (p : Payload) (m : ℝ) : Payload :=
  match p with
  | .scalar x => .scalar (x / m)
  | .array xs => .array (xs.map (fun x => x / m))

/-- Elementwise multiplication of a payload by a scalar. -/
def payScale (p : Payload) (c : ℝ) : Payload :=
  match p with
  | .scalar x => .scalar (x * c)
  | .array xs => .array (xs.map (fun x => x * c))

/-- source optimize_unit: optimizes physical units and quantities.  Named
units are delegated unchanged; composite units go to opt_comp_units; plain
numbers are returned unchanged; a quantity is factored into a mean magnitude
and a rescaled unit, optionally hertz-fixed, optimized, and recombined. -/
def optimize_unit (quant : PyVal) (fix_time_freq : Bool) : Except UErr PyVal :=
  match quant with
  | .unit (.named u) => .ok (.unit (.named (opt_named_unit u)))
  | .unit (.comp s bs ps) =>
    match opt_comp_units (.comp s bs ps) with
    | .error e => .error e
    | .ok r => .ok (.unit r)
  | .num x => .ok (.num x)   -- not a unit or quantity: returned unchanged
  | .quant q =>
    let mean_value := payMean q.value
    if mean_value = 0 then .ok (.quant q)
    else
      let scaled_value := payDiv q.value mean_value
      let new_unit : UnitExpr :=
        match q.unit with
        | .comp s bs ps => .comp (mean_value * s) bs ps
        | .named nu => .comp mean_value [.named nu] [1]
      let new_unit := if fix_time_freq then fixhertz_comp new_unit else new_unit
      match opt_comp_units new_unit with
      | .error e => .error e
      | .ok opt_unit =>
        .ok (.quant ⟨payScale scaled_value opt_unit.scale,
                     .comp 1 opt_unit.bases opt_unit.powers⟩)

/-- Classification of a named unit for the magnitude semantics: the prefix
exponent and whether the unit is a (possibly prefixed) hertz, for exactly
the shapes of unit the hertz flip can rewrite; none for everything else. -/
def itemClass : NamedUnit → Option (ℤ × Bool)
  | .attosecond => some (-18, false)
  | .base n =>
    if n = "s" then some (0, false)
    else if n = "Hz" then some (0, true)
    else none
  | .pre i sym =>
    if sym = "s" then some (prefExpon i, false)
    else if sym = "Hz" then some (prefExpon i, true)
    else none

/-- Additive semantic record for the denotation: exponent of 10 contributed
by SI prefixes, net exponent of the time dimension (a second counts +1 and
a hertz -1 per unit power, Hz being 1/s exactly), and the exponents of all
bases outside the time/frequency fragment. -/
abbrev SemV : Type := ℝ × ℝ × (UnitExpr → ℝ)

/-- Per-unit-power semantic contribution of a named unit. -/
def namedSem (u : NamedUnit) : SemV :=
  match itemClass u with
  | some (e, isHz) => ((e : ℝ), if isHz then (-1 : ℝ) else 1, fun _ => 0)
  | none => (0, 0, fun x => if x = UnitExpr.named u then 1 else 0)

mutual

/-- Denotation of a unit expression: a multiplicative coefficient together
with the additive semantic record, identifying Hz with 1/s exactly.  Two
unit expressions with the same denotation stand for the same physical
magnitude. -/
def denoteC : UnitExpr → ℝ × SemV
  | .named u => (1, namedSem u)
  | .comp s bs ps =>
    let r := denoteList bs ps
    (s * r.1, r.2)

/-- Denotation of a list of (base, power) pairs, truncating to the shorter
of the two lists as the source's zip does. -/
def denoteList : List UnitExpr → List ℝ → ℝ × SemV
  | [], _ => (1, 0)
  | _ :: _, [] => (1, 0)
  | b :: bs, p :: ps =>
    let d := denoteC b
    let r := denoteList bs ps
    (d.1 ^ p * r.1, p • d.2 + r.2)

end

/-- Contribution of one (base, power) pair to the denotation. -/
def pairSem (b : UnitExpr) (p : ℝ) : ℝ × SemV :=
  ((denoteC b).1 ^ p, p • (denoteC b).2)

/-- The claim-side (unit_name, current_exponent) table: attosecond to
("s", -18), kilogram to ("g", 3), centimeter to ("m", -2), any other
prefixed unit to its symbol with its prefix exponent, an unprefixed unit to
its name with exponent 0. -/
def currentNE (u : NamedUnit) : String × ℤ :=
  if u = .attosecond then ("s", attosecond_exponent)
  else if u = kilogram then ("g", 3)
  else if u = centimeter then ("m", -2)
  else
    match u with
    | .pre i sym => (sym, prefExpon i)
    | .base n => (n, 0)
    | .attosecond => ("s", attosecond_exponent)

/-- The claim-side new exponent:
clamp(floor((e + log10(|s| ^ (1 / p))) / 3) * 3, -24, 24). -/
def newExponOf (s p : ℝ) (b : NamedUnit) : ℤ :=
  min 24 (max (-24)
    (3 * ⌊(((currentNE b).2 : ℝ) + Real.logb 10 (|s| ^ (1 / p))) / 3⌋))

/-- The prefix character of a valid nonzero exponent (claim side, total). -/
def exponPrefChar (e : ℤ) : Char := (expon_to_pref e).getD 'y'

/-- The claim-side re-prefixed base: the bare name for exponent 0, otherwise
the table prefix attached to the unprefixed name via the collaborator
lookup (with the source's 'as' special case). -/
def reprefixedBase (e : ℤ) (name : String) : NamedUnit :=
  if e = 0 then (if name = "as" then .attosecond else .base name)
  else mkPrefUnit (exponPrefChar e) name

theorem si_prefixes_length : si_prefixes.length = 16 := by decide

theorem si_exponents_length : si_exponents.length = 16 := by decide

theorem pref_to_expon_prefChar (i : Fin 16) :
    pref_to_expon (prefChar i) = some (prefExpon i) := by revert i; decide

theorem clamp_bounds (k : ℤ) :
    -24 ≤ min 24 (max (-24) (3 * k)) ∧ min 24 (max (-24) (3 * k)) ≤ 24 ∧
      3 ∣ min 24 (max (-24) (3 * k)) := by omega

theorem expon_to_pref_valid (e : ℤ) (h3 : (3 : ℤ) ∣ e) (hlo : -24 ≤ e)
    (hhi : e ≤ 24) (h0 : e ≠ 0) : (expon_to_pref e).isSome := by
  obtain ⟨m, rfl⟩ := h3
  have h1 : -8 ≤ m := by omega
  have h2 : m ≤ 8 := by omega
  interval_cases m <;> first | decide | (exfalso; omega)

theorem detNameExpon_eq (b : NamedUnit) : detNameExpon b = .ok (currentNE b) := by
  cases b with
  | attosecond => rfl
  | base n =>
    unfold detNameExpon currentNE
    split_ifs <;> rfl
  | pre i sym =>
    simp [detNameExpon, currentNE, kilogram, centimeter, pref_to_expon_prefChar]

/-- Normal form of opt_single_base on a legal one-pair composite, in terms of
the claim-side table, exponent formula and re-prefixing. -/
theorem opt_single_base_eq (s p : ℝ) (b : NamedUnit) :
    opt_single_base (.comp s [.named b] [p]) =
      .ok (.comp
        ((if 0 ≤ s then (1 : ℝ) else -1) *
          (|s| * (10 : ℝ) ^ (((currentNE b).2 : ℝ) * p - ((newExponOf s p b : ℤ) : ℝ) * p)))
        [.named (reprefixedBase (newExponOf s p b) (currentNE b).1)] [p]) := by
  unfold opt_single_base newExponOf reprefixedBase
  simp only [detNameExpon_eq, List.length_cons, List.length_nil]
  set E : ℤ :=
    min 24 (max (-24)
      (3 * ⌊(((currentNE b).2 : ℝ) + Real.logb 10 (|s| ^ (1 / p))) / 3⌋)) with hE
  by_cases h0 : E = 0
  · simp [h0]
  · have hb := clamp_bounds (⌊(((currentNE b).2 : ℝ) + Real.logb 10 (|s| ^ (1 / p))) / 3⌋)
    rw [← hE] at hb
    have hv := expon_to_pref_valid E hb.2.2 hb.1 hb.2.1 h0
    obtain ⟨c, hc⟩ := Option.isSome_iff_exists.mp hv
    simp [h0, hc, exponPrefChar]

theorem logb_ten_1000 : Real.logb 10 1000 = 3 := by
  have h : (1000 : ℝ) = 10 ^ (3 : ℕ) := by norm_num
  rw [h, Real.logb_pow, Real.logb_self_eq_one (by norm_num)]
  norm_num

/-- C1: for a one-pair composite with nonzero scale s and nonzero power p,
opt_single_base returns a one-base composite whose new prefix exponent is
clamp(floor((e + log10(|s| ^ (1/p))) / 3) * 3, -24, 24) — e given by the
claim's table currentNE — and whose scale is sign(s) * |s| * 10^(p * (e - e'))
attached to the re-prefixed base raised to the original power p. -/
theorem opt_single_base_formula (s p : ℝ) (b : NamedUnit) (hs : s ≠ 0) (hp : p ≠ 0) :
    opt_single_base (.comp s [.named b] [p]) =
      .ok (.comp
        ((if 0 ≤ s then (1 : ℝ) else -1) * |s| *
          (10 : ℝ) ^ (p * (((currentNE b).2 : ℝ) - ((newExponOf s p b : ℤ) : ℝ))))
        [.named (reprefixedBase (newExponOf s p b) (currentNE b).1)] [p]) := by
  have hexp : ((currentNE b).2 : ℝ) * p - ((newExponOf s p b : ℤ) : ℝ) * p
      = p * (((currentNE b).2 : ℝ) - ((newExponOf s p b : ℤ) : ℝ)) := by ring
  rw [opt_single_base_eq, hexp, ← mul_assoc]

/-- C1 witness: opt_single_base(1000 × meter^1) = 1 × kilometer. -/
theorem opt_single_base_formula_witness :
    opt_single_base (.comp 1000 [.named meter] [1]) =
      .ok (.comp 1 [.named kilometer] [1]) := by
  rw [opt_single_base_formula 1000 1 meter (by norm_num) (by norm_num)]
  have hne : currentNE meter = ("m", 0) := by decide
  have habs : |(1000 : ℝ)| = 1000 := by norm_num
  have hrone : (|(1000 : ℝ)|) ^ ((1 : ℝ) / 1) = 1000 := by
    rw [habs]; norm_num
  have hE : newExponOf 1000 1 meter = 3 := by
    unfold newExponOf
    rw [hne, hrone, logb_ten_1000]
    norm_num
  have hunit : reprefixedBase 3 "m" = kilometer := by decide
  rw [hne, hE, hunit]
  have hsc : (if 0 ≤ (1000 : ℝ) then (1 : ℝ) else -1) * |(1000 : ℝ)| *
      (10 : ℝ) ^ ((1 : ℝ) * (((0 : ℤ) : ℝ) - ((3 : ℤ) : ℝ))) = 1 := by
    rw [if_pos (by norm_num), habs]
    have h3 : ((1 : ℝ) * (((0 : ℤ) : ℝ) - ((3 : ℤ) : ℝ))) = (((-3 : ℤ) : ℝ)) := by
      push_cast; ring
    rw [h3, Real.rpow_intCast]
    norm_num
  rw [hsc]

/-- C7: for every legal single-base input (one pair, nonzero scale and
power), opt_single_base cannot fail: the new exponent is a multiple of 3 in
[-24, 24], the exponent-to-prefix lookup succeeds whenever the exponent is
nonzero, and when the exponent is not clamped at the ±24 boundary the
per-unit magnitude new_value ^ (1/power) is at least 1. -/
theorem opt_single_base_safety (s p : ℝ) (b : NamedUnit) (hs : s ≠ 0) (hp : p ≠ 0) :
    ∃ r, opt_single_base (.comp s [.named b] [p]) = .ok r ∧
      (-24 ≤ newExponOf s p b ∧ newExponOf s p b ≤ 24 ∧ (3 : ℤ) ∣ newExponOf s p b) ∧
      (newExponOf s p b ≠ 0 → (expon_to_pref (newExponOf s p b)).isSome) ∧
      ((-24 ≤ 3 * ⌊(((currentNE b).2 : ℝ) + Real.logb 10 (|s| ^ (1 / p))) / 3⌋ ∧
          3 * ⌊(((currentNE b).2 : ℝ) + Real.logb 10 (|s| ^ (1 / p))) / 3⌋ ≤ 24) →
        1 ≤ |r.scale| ^ (1 / p)) := by
  have hb : -24 ≤ newExponOf s p b ∧ newExponOf s p b ≤ 24 ∧
      (3 : ℤ) ∣ newExponOf s p b := clamp_bounds _
  refine ⟨_, opt_single_base_eq s p b, hb,
    fun h0 => expon_to_pref_valid _ hb.2.2 hb.1 hb.2.1 h0, ?_⟩
  rintro ⟨hlo, hhi⟩
  have hEeq : newExponOf s p b
      = 3 * ⌊(((currentNE b).2 : ℝ) + Real.logb 10 (|s| ^ (1 / p))) / 3⌋ := by
    unfold newExponOf
    omega
  simp only [UnitExpr.scale]
  have habs_sign : |(if 0 ≤ s then (1 : ℝ) else -1)| = 1 := by split_ifs <;> norm_num
  have hsabs : (0 : ℝ) < |s| := abs_pos.mpr hs
  have h10 : (0 : ℝ) < (10 : ℝ) ^
      (((currentNE b).2 : ℝ) * p - ((newExponOf s p b : ℤ) : ℝ) * p) :=
    Real.rpow_pos_of_pos (by norm_num) _
  rw [abs_mul, habs_sign, one_mul, abs_of_nonneg (by positivity)]
  rw [Real.mul_rpow (le_of_lt hsabs) (le_of_lt h10)]
  rw [← Real.rpow_mul (by norm_num : (0 : ℝ) ≤ 10)]
  have harg : (((currentNE b).2 : ℝ) * p - ((newExponOf s p b : ℤ) : ℝ) * p) * (1 / p)
      = ((currentNE b).2 : ℝ) - ((newExponOf s p b : ℤ) : ℝ) := by
    rw [mul_one_div, div_eq_iff hp]
    ring
  rw [harg]
  have hsl : |s| ^ (1 / p) = (10 : ℝ) ^ (Real.logb 10 (|s| ^ (1 / p))) := by
    rw [Real.rpow_logb (by norm_num) (by norm_num) (Real.rpow_pos_of_pos hsabs _)]
  rw [hsl, ← Real.rpow_add (by norm_num : (0 : ℝ) < 10)]
  rw [show (1 : ℝ) = (10 : ℝ) ^ (0 : ℝ) by rw [Real.rpow_zero]]
  apply (Real.rpow_le_rpow_left_iff (by norm_num : (1 : ℝ) < 10)).mpr
  have hfl : ((3 : ℝ) * (⌊(((currentNE b).2 : ℝ) + Real.logb 10 (|s| ^ (1 / p))) / 3⌋ : ℤ))
      ≤ ((currentNE b).2 : ℝ) + Real.logb 10 (|s| ^ (1 / p)) := by
    have h := Int.floor_le ((((currentNE b).2 : ℝ) + Real.logb 10 (|s| ^ (1 / p))) / 3)
    linarith
  rw [hEeq]
  push_cast
  push_cast at hfl
  linarith

/-- C7 witness at 1000 × meter^1. -/
theorem opt_single_base_safety_witness :
    ∃ r, opt_single_base (.comp 1000 [.named meter] [1]) = .ok r ∧
      (-24 ≤ newExponOf 1000 1 meter ∧ newExponOf 1000 1 meter ≤ 24 ∧
        (3 : ℤ) ∣ newExponOf 1000 1 meter) ∧
      (newExponOf 1000 1 meter ≠ 0 → (expon_to_pref (newExponOf 1000 1 meter)).isSome) ∧
      ((-24 ≤ 3 * ⌊(((currentNE meter).2 : ℝ) + Real.logb 10 (|(1000 : ℝ)| ^ ((1 : ℝ) / 1))) / 3⌋ ∧
          3 * ⌊(((currentNE meter).2 : ℝ) + Real.logb 10 (|(1000 : ℝ)| ^ ((1 : ℝ) / 1))) / 3⌋ ≤ 24) →
        1 ≤ |r.scale| ^ ((1 : ℝ) / 1)) :=
  opt_single_base_safety 1000 1 meter (by norm_num) (by norm_num)

/-- C2: for a composite whose first base is a named unit, opt_comp_units
equals opt_single_base applied to the one-pair composite of the original
scale and the first (base, power) pair, with pairs 2..N appended verbatim
and unchanged after the optimized first term (errors propagate). -/
theorem opt_comp_units_first_base_policy (s : ℝ) (b0 : NamedUnit)
    (rest : List UnitExpr) (p0 : ℝ) (prest : List ℝ) :
    opt_comp_units (.comp s (.named b0 :: rest) (p0 :: prest)) =
      (opt_single_base (.comp s [.named b0] [p0])).map
        (fun nb => .comp nb.scale (nb.bases ++ rest) (nb.powers ++ prest)) := by
  unfold opt_comp_units
  simp only [UnitExpr.bases, UnitExpr.powers, UnitExpr.scale]
  cases h : opt_single_base (.comp s [.named b0] [p0]) <;> simp [h, Except.map]

/-- C4: the zero-base case slips past opt_single_base's more-than-one-base
guard and fails with an unguarded IndexError at bases[0], not with the
documented TypeError contract error; the more-than-one-base case does raise
the contract error. -/
theorem opt_single_base_zero_vs_many_bases :
    opt_single_base (.comp 1 ([] : List UnitExpr) []) = .error .indexError ∧
    opt_single_base (.comp 1 [.named meter, .named second] [1, 1]) = .error .typeError ∧
    UErr.indexError ≠ UErr.typeError := by
  refine ⟨?_, ?_, by simp⟩
  · rfl
  · rfl

/-- C5 counterexample: exponent 0 is a multiple of 3 in [-24, 24], yet the
exponent-to-prefix lookup fails on it (the table has no entry for 0). -/
theorem expon_to_pref_zero_fails :
    expon_to_pref 0 = none ∧ ((3 : ℤ) ∣ 0 ∧ (-24 : ℤ) ≤ 0 ∧ (0 : ℤ) ≤ 24) := by
  refine ⟨by decide, by decide, by decide, by decide⟩

/-- C5 amended: the exponent-to-prefix lookup succeeds exactly on the
nonzero multiples of 3 in [-24, 24]; exponent 0 fails although it is a
multiple of 3 in range (the table deliberately omits the empty prefix). -/
theorem expon_to_pref_domain (e : ℤ) :
    (expon_to_pref e).isSome ↔ ((3 : ℤ) ∣ e ∧ -24 ≤ e ∧ e ≤ 24 ∧ e ≠ 0) := by
  have hmap : exponent_map =
      [(-24, 'y'), (-21, 'z'), (-18, 'a'), (-15, 'f'), (-12, 'p'), (-9, 'n'),
       (-6, 'u'), (-3, 'm'), (3, 'k'), (6, 'M'), (9, 'G'), (12, 'T'),
       (15, 'P'), (18, 'E'), (21, 'Z'), (24, 'Y')] := by decide
  rw [show expon_to_pref e = exponent_map.lookup e from rfl, hmap,
    List.lookup_isSome_iff]
  simp only [List.mem_cons, List.not_mem_nil, or_false, beq_iff_eq]
  constructor
  · rintro ⟨p, hp, rfl⟩
    rcases hp with h | h | h | h | h | h | h | h | h | h | h | h | h | h | h | h <;>
      subst h <;> omega
  · intro h
    have h24 : e = -24 ∨ e = -21 ∨ e = -18 ∨ e = -15 ∨ e = -12 ∨ e = -9 ∨
        e = -6 ∨ e = -3 ∨ e = 3 ∨ e = 6 ∨ e = 9 ∨ e = 12 ∨ e = 15 ∨
        e = 18 ∨ e = 21 ∨ e = 24 := by omega
    rcases h24 with rfl | rfl | rfl | rfl | rfl | rfl | rfl | rfl | rfl | rfl |
      rfl | rfl | rfl | rfl | rfl | rfl <;> simp

/-- C8: prefix flipping maps the i-th SI prefix symbol to the (15-i)-th, the
symbol with the negated exponent, and applying it twice is the identity over
the 16-symbol set. -/
theorem flip_pref_involution (i : Fin 16) :
    flip_pref (flip_pref (prefChar i)) = prefChar i ∧
    flip_pref (prefChar i) = prefChar i.rev ∧
    pref_to_expon (flip_pref (prefChar i)) = some (-(prefExpon i)) := by
  revert i; decide

/-- C10: optimize_unit is not total over quantities: a quantity with a
zero-base dimensionless composite unit and nonzero mean reaches
opt_comp_units, whose unguarded bases[0] access fails with IndexError —
neither a return-unchanged nor one of the documented contract errors. -/
theorem optimize_unit_zero_base_crash :
    optimize_unit (.quant ⟨.scalar 5, .comp 1 [] []⟩) false = .error .indexError ∧
      UErr.indexError ≠ UErr.typeError ∧ UErr.indexError ≠ UErr.valueError := by
  refine ⟨?_, by simp, by simp⟩
  simp only [optimize_unit]
  rw [if_neg (by norm_num [payMean] : ¬payMean (Payload.scalar 5) = 0)]
  simp [opt_comp_units, UnitExpr.bases]

/-- C9: optimize_unit returns its input unchanged when there is nothing to
normalize: a plain number is returned as-is, and a quantity whose mean of
absolute element values is exactly 0 (a scalar being its own mean-of-one) is
returned identically with value and unit unchanged.  Arrays are required to
be nonempty: on an empty array the source's np.mean is nan (never 0), which
the real-valued model cannot represent. -/
theorem optimize_unit_identity_guards (ftf : Bool) :
    (∀ x : ℝ, optimize_unit (.num x) ftf = .ok (.num x)) ∧
    (∀ u : UnitExpr, optimize_unit (.quant ⟨.scalar 0, u⟩) ftf = .ok (.quant ⟨.scalar 0, u⟩)) ∧
    (∀ (xs : List ℝ) (u : UnitExpr), xs ≠ [] → payMean (.array xs) = 0 →
      optimize_unit (.quant ⟨.array xs, u⟩) ftf = .ok (.quant ⟨.array xs, u⟩)) := by
  refine ⟨fun x => rfl, fun u => ?_, fun xs u hne hm => ?_⟩
  · simp [optimize_unit, payMean]
  · simp only [optimize_unit]
    rw [if_pos hm]

/-- C9 witness: a one-element zero array quantity is returned unchanged. -/
theorem optimize_unit_identity_guards_witness :
    optimize_unit (.quant ⟨.array [0], .named meter⟩) false =
      .ok (.quant ⟨.array [0], .named meter⟩) :=
  (optimize_unit_identity_guards false).2.2 [0] (.named meter) (by simp)
    (by norm_num [payMean])

theorem is_unity_one : is_unity 1 := by norm_num [is_unity, is_close]

theorem not_is_unity_natCast (n : ℕ) (h2 : 2 ≤ n) : ¬ is_unity (n : ℝ) := by
  intro h
  unfold is_unity is_close at h
  have hn : (2 : ℝ) ≤ (n : ℝ) := by exact_mod_cast h2
  rw [abs_of_nonneg (by linarith)] at h
  norm_num at h
  linarith

theorem fixhertz_item_nonneg (b : UnitExpr) (p : ℝ) (hp : 0 ≤ p) :
    fixhertz_item b p = (b, p) := by
  cases b with
  | comp s bs ps => rfl
  | named u =>
    simp only [fixhertz_item]
    rw [if_pos (Or.inl hp)]

theorem fixhertz_item_second_neg (p : ℝ) (hp : 0 < p) :
    fixhertz_item (.named second) (-p) = (.named hertz, p) := by
  simp only [fixhertz_item]
  rw [if_neg (not_or.mpr ⟨not_le.mpr (by linarith), by decide⟩)]
  simp [isPrefixUnit, second, hertz]

theorem fixhertz_item_hertz_neg (p : ℝ) (hp : 0 < p) :
    fixhertz_item (.named hertz) (-p) = (.named second, p) := by
  simp only [fixhertz_item]
  rw [if_neg (not_or.mpr ⟨not_le.mpr (by linarith), by decide⟩)]
  simp [isPrefixUnit, second, hertz]

/-- fixhertz_comp on a one-pair composite with scale 1: the flipped pair is
unwrapped to the bare base exactly when the flipped power is close to 1. -/
theorem fixhertz_comp_single (b b' : UnitExpr) (p p' : ℝ)
    (hitem : fixhertz_item b p = (b', p')) :
    fixhertz_comp (.comp 1 [b] [p]) =
      (if is_unity p' then b' else .comp 1 [b'] [p']) := by
  unfold fixhertz_comp
  simp only [UnitExpr.bases, UnitExpr.powers, UnitExpr.scale, List.zipWith, hitem]
  by_cases h : is_unity p'
  · rw [if_pos ⟨is_unity_one, trivial, h⟩, if_pos h]
  · rw [if_neg (fun hc => h hc.2.2), if_neg h]
    simp

/-- C3 counterexample: flipping 3 × second^-2 yields 3 × hertz^2, but
flipping that result again leaves it at 3 × hertz^2 (positive powers are
never flipped), not 3 × second^2 as the claim states. -/
theorem hertz_round_trip_counterexample :
    fixhertz (fixhertz (.quant ⟨.scalar 3, .comp 1 [.named second] [-(2 : ℝ)]⟩))
      = .quant ⟨.scalar 3, .comp 1 [.named hertz] [(2 : ℝ)]⟩ ∧
    fixhertz (fixhertz (.quant ⟨.scalar 3, .comp 1 [.named second] [-(2 : ℝ)]⟩))
      ≠ .quant ⟨.scalar 3, .comp 1 [.named second] [(2 : ℝ)]⟩ := by
  have hu2 : ¬ is_unity (2 : ℝ) := by
    have := not_is_unity_natCast 2 (le_refl 2)
    norm_num at this ⊢
    exact this
  have hc1 : fixhertz_comp (.comp 1 [.named second] [(-2 : ℝ)]) =
      .comp 1 [.named hertz] [(2 : ℝ)] := by
    rw [fixhertz_comp_single _ _ _ _ (fixhertz_item_second_neg 2 (by norm_num)),
      if_neg hu2]
  have hc2 : fixhertz_comp (.comp 1 [.named hertz] [(2 : ℝ)]) =
      .comp 1 [.named hertz] [(2 : ℝ)] := by
    rw [fixhertz_comp_single _ _ _ _ (fixhertz_item_nonneg (.named hertz) 2 (by norm_num)),
      if_neg hu2]
  constructor
  · show PyVal.quant ⟨.scalar 3, fixhertz_comp (fixhertz_comp
        (.comp 1 [.named second] [(-2 : ℝ)]))⟩ = _
    rw [hc1, hc2]
  · show PyVal.quant ⟨.scalar 3, fixhertz_comp (fixhertz_comp
        (.comp 1 [.named second] [(-2 : ℝ)]))⟩ ≠ _
    rw [hc1, hc2]
    simp [second, hertz]

/-- C3 amended: for a positive integer power n and value v, flipping
v × second^-n yields v × hertz^n, flipping v × hertz^-n yields v × second^n
(in both cases the n = 1 result is unwrapped to the bare named unit), and
flipping v × hertz^n with its nonnegative power leaves it unchanged — so the
literal second flip of the first result does not return to seconds. -/
theorem hertz_flip_round_trip (v : ℝ) (n : ℕ) (hn : 0 < n) :
    fixhertz (.quant ⟨.scalar v, .comp 1 [.named second] [-(n : ℝ)]⟩)
      = .quant ⟨.scalar v,
          if n = 1 then .named hertz else .comp 1 [.named hertz] [(n : ℝ)]⟩ ∧
    fixhertz (.quant ⟨.scalar v, .comp 1 [.named hertz] [-(n : ℝ)]⟩)
      = .quant ⟨.scalar v,
          if n = 1 then .named second else .comp 1 [.named second] [(n : ℝ)]⟩ ∧
    fixhertz (.quant ⟨.scalar v, .comp 1 [.named hertz] [(n : ℝ)]⟩)
      = .quant ⟨.scalar v,
          if n = 1 then .named hertz else .comp 1 [.named hertz] [(n : ℝ)]⟩ := by
  have hpos : (0 : ℝ) < (n : ℝ) := by exact_mod_cast hn
  have hcast : ∀ m : UnitExpr, (if n = 1 then m else UnitExpr.comp 1 [m] [(n : ℝ)])
      = (if is_unity (n : ℝ) then m else .comp 1 [m] [(n : ℝ)]) := by
    intro m
    rcases eq_or_ne n 1 with rfl | hne
    · rw [if_pos rfl, if_pos (by norm_num; exact is_unity_one)]
    · rw [if_neg hne, if_neg (not_is_unity_natCast n (by omega))]
  refine ⟨?_, ?_, ?_⟩
  · show PyVal.quant ⟨.scalar v, fixhertz_comp (.comp 1 [.named second] [-(n : ℝ)])⟩ = _
    rw [fixhertz_comp_single _ _ _ _ (fixhertz_item_second_neg (n : ℝ) hpos), hcast]
  · show PyVal.quant ⟨.scalar v, fixhertz_comp (.comp 1 [.named hertz] [-(n : ℝ)])⟩ = _
    rw [fixhertz_comp_single _ _ _ _ (fixhertz_item_hertz_neg (n : ℝ) hpos), hcast]
  · show PyVal.quant ⟨.scalar v, fixhertz_comp (.comp 1 [.named hertz] [(n : ℝ)])⟩ = _
    rw [fixhertz_comp_single _ _ _ _ (fixhertz_item_nonneg (.named hertz) (n : ℝ) hpos.le),
      hcast]

/-- C3 witness at v = 5, n = 2. -/
theorem hertz_flip_round_trip_witness :
    fixhertz (.quant ⟨.scalar 5, .comp 1 [.named second] [-((2 : ℕ) : ℝ)]⟩)
      = .quant ⟨.scalar 5,
          if (2 : ℕ) = 1 then .named hertz else .comp 1 [.named hertz] [((2 : ℕ) : ℝ)]⟩ ∧
    fixhertz (.quant ⟨.scalar 5, .comp 1 [.named hertz] [-((2 : ℕ) : ℝ)]⟩)
      = .quant ⟨.scalar 5,
          if (2 : ℕ) = 1 then .named second else .comp 1 [.named second] [((2 : ℕ) : ℝ)]⟩ ∧
    fixhertz (.quant ⟨.scalar 5, .comp 1 [.named hertz] [((2 : ℕ) : ℝ)]⟩)
      = .quant ⟨.scalar 5,
          if (2 : ℕ) = 1 then .named hertz else .comp 1 [.named hertz] [((2 : ℕ) : ℝ)]⟩ :=
  hertz_flip_round_trip 5 2 (by norm_num)

theorem itemClass_attosecond : itemClass .attosecond = some (-18, false) := by decide

theorem itemClass_exahertz : itemClass exahertz = some (18, true) := by decide

theorem itemClass_flip_Hz (i : Fin 16) :
    itemClass (mkPrefUnit (flip_pref (prefChar i)) "Hz") = some (-(prefExpon i), true) := by
  revert i; decide

theorem itemClass_flip_s (i : Fin 16) :
    itemClass (mkPrefUnit (flip_pref (prefChar i)) "s") = some (-(prefExpon i), false) := by
  revert i; decide

theorem itemClass_pre_s (i : Fin 16) :
    itemClass (.pre i "s") = some (prefExpon i, false) := by
  revert i; decide

theorem itemClass_pre_Hz (i : Fin 16) :
    itemClass (.pre i "Hz") = some (prefExpon i, true) := by
  revert i; decide

theorem smul_namedSem_flip_to_hz (e : ℤ) (p : ℝ) (u1 u2 : NamedUnit)
    (h1 : itemClass u1 = some (e, false)) (h2 : itemClass u2 = some (-e, true)) :
    (-p) • namedSem u2 = p • namedSem u1 := by
  simp only [namedSem, h1, h2]
  refine Prod.ext ?_ (Prod.ext ?_ ?_)
  · simp only [Prod.smul_fst, smul_eq_mul]
    push_cast
    ring
  · simp only [Prod.smul_snd, Prod.smul_fst, smul_eq_mul]
    norm_num
  · funext x
    simp

theorem smul_namedSem_flip_to_s (e : ℤ) (p : ℝ) (u1 u2 : NamedUnit)
    (h1 : itemClass u1 = some (e, true)) (h2 : itemClass u2 = some (-e, false)) :
    (-p) • namedSem u2 = p • namedSem u1 := by
  simp only [namedSem, h1, h2]
  refine Prod.ext ?_ (Prod.ext ?_ ?_)
  · simp only [Prod.smul_fst, smul_eq_mul]
    push_cast
    ring
  · simp only [Prod.smul_snd, Prod.smul_fst, smul_eq_mul]
    norm_num
  · funext x
    simp

/-- The per-pair contribution to the denotation is invariant under the
hertz-flip of a single (base, power) pair. -/
theorem pairSem_fixhertz_item (b : UnitExpr) (p : ℝ) :
    pairSem (fixhertz_item b p).1 (fixhertz_item b p).2 = pairSem b p := by
  cases b with
  | comp s bs ps => rfl
  | named u =>
    by_cases h0 : (0 ≤ p ∨ ¬ is_time_freq u)
    · rw [show fixhertz_item (.named u) p = (.named u, p) from by
        simp only [fixhertz_item]; rw [if_pos h0]]
    · have h0' := h0
      push_neg at h0'
      obtain ⟨hp, htf⟩ := h0'
      cases u with
      | attosecond =>
        have hfi : fixhertz_item (.named .attosecond) p = (.named exahertz, -p) := by
          simp only [fixhertz_item]
          rw [if_neg h0, if_neg (by simp [isPrefixUnit])]
          simp
        rw [hfi]
        unfold pairSem
        simp only [denoteC]
        rw [Real.one_rpow, Real.one_rpow]
        exact Prod.ext rfl
          (smul_namedSem_flip_to_hz (-18) p _ _ itemClass_attosecond
            (by rw [itemClass_exahertz]; norm_num))
      | base n =>
        have hn : n = "s" ∨ n = "Hz" := by
          by_contra hc
          push_neg at hc
          simp [is_time_freq, NamedUnit.ptype, symPhysType, hc.1, hc.2] at htf
        rcases hn with rfl | rfl
        · have hfi : fixhertz_item (.named (.base "s")) p = (.named hertz, -p) := by
            simp only [fixhertz_item]
            rw [if_neg h0, if_pos (by simp [isPrefixUnit])]
            simp [second, hertz]
          rw [hfi]
          unfold pairSem
          simp only [denoteC]
          rw [Real.one_rpow, Real.one_rpow]
          exact Prod.ext rfl
            (smul_namedSem_flip_to_hz 0 p _ _ (by decide) (by decide))
        · have hfi : fixhertz_item (.named (.base "Hz")) p = (.named second, -p) := by
            simp only [fixhertz_item]
            rw [if_neg h0, if_pos (by simp [isPrefixUnit])]
            simp [second, hertz]
          rw [hfi]
          unfold pairSem
          simp only [denoteC]
          rw [Real.one_rpow, Real.one_rpow]
          exact Prod.ext rfl
            (smul_namedSem_flip_to_s 0 p _ _ (by decide) (by decide))
      | pre i sym =>
        have hn : sym = "s" ∨ sym = "Hz" := by
          by_contra hc
          push_neg at hc
          simp [is_time_freq, NamedUnit.ptype, symPhysType, hc.1, hc.2] at htf
        rcases hn with rfl | rfl
        · have hfi : fixhertz_item (.named (.pre i "s")) p =
              (.named (mkPrefUnit (flip_pref (prefChar i)) "Hz"), -p) := by
            simp only [fixhertz_item]
            rw [if_neg h0, if_neg (by simp [isPrefixUnit]), if_neg (by simp)]
            simp
          rw [hfi]
          unfold pairSem
          simp only [denoteC]
          rw [Real.one_rpow, Real.one_rpow]
          exact Prod.ext rfl
            (smul_namedSem_flip_to_hz (prefExpon i) p _ _ (itemClass_pre_s i)
              (itemClass_flip_Hz i))
        · have hfi : fixhertz_item (.named (.pre i "Hz")) p =
              (.named (mkPrefUnit (flip_pref (prefChar i)) "s"), -p) := by
            simp only [fixhertz_item]
            rw [if_neg h0, if_neg (by simp [isPrefixUnit]), if_neg (by simp)]
            simp
          rw [hfi]
          unfold pairSem
          simp only [denoteC]
          rw [Real.one_rpow, Real.one_rpow]
          exact Prod.ext rfl
            (smul_namedSem_flip_to_s (prefExpon i) p _ _ (itemClass_pre_Hz i)
              (itemClass_flip_s i))

/-- The denotation of a pair list is invariant under the pairwise hertz
flip. -/
theorem denoteList_fixhertz (bs : List UnitExpr) (ps : List ℝ) :
    denoteList ((List.zipWith fixhertz_item bs ps).map Prod.fst)
        ((List.zipWith fixhertz_item bs ps).map Prod.snd)
      = denoteList bs ps := by
  induction bs generalizing ps with
  | nil => rfl
  | cons b bs ih =>
    cases ps with
    | nil => rfl
    | cons p ps =>
      simp only [List.zipWith_cons_cons, List.map_cons]
      simp only [denoteList]
      rw [ih ps]
      have hpair := pairSem_fixhertz_item b p
      rw [Prod.ext_iff] at hpair
      simp only [pairSem] at hpair
      rw [hpair.1, hpair.2]

/-- The denotation of a unit expression through its scale/bases/powers
attributes. -/
theorem denoteC_eq_scale_denoteList (u : UnitExpr) :
    denoteC u = (u.scale * (denoteList u.bases u.powers).1,
                 (denoteList u.bases u.powers).2) := by
  cases u with
  | comp s bs ps => simp only [denoteC, UnitExpr.scale, UnitExpr.bases, UnitExpr.powers]
  | named u0 =>
    simp only [UnitExpr.scale, UnitExpr.bases, UnitExpr.powers, denoteC, denoteList]
    rw [Real.rpow_one]
    simp

/-- Denotation preservation of fixhertz_comp, assuming the unwrap guard only
fires exactly: whenever the flipped pair list is a single pair and the scale
and flipped power pass the is_unity tolerance test, they are exactly 1. -/
theorem fixhertz_comp_denote (u : UnitExpr)
    (hx : ∀ b2 p2, List.zipWith fixhertz_item u.bases u.powers = [(b2, p2)] →
        is_unity u.scale → is_unity p2 → (u.scale = 1 ∧ p2 = 1)) :
    denoteC (fixhertz_comp u) = denoteC u := by
  cases hfix : List.zipWith fixhertz_item u.bases u.powers with
  | nil =>
    have hid : fixhertz_comp u = u := by unfold fixhertz_comp; rw [hfix]
    rw [hid]
  | cons hd rest =>
    obtain ⟨b2, p2⟩ := hd
    have hcomp : fixhertz_comp u =
        (if is_unity u.scale ∧ rest = [] ∧ is_unity p2 then b2
         else .comp u.scale (((b2, p2) :: rest).unzip.1) (((b2, p2) :: rest).unzip.2)) := by
      unfold fixhertz_comp
      rw [hfix]
    by_cases hg : is_unity u.scale ∧ rest = [] ∧ is_unity p2
    · rw [hcomp, if_pos hg]
      obtain ⟨hs1, hp1⟩ := hx b2 p2 (by rw [hfix, hg.2.1]) hg.1 hg.2.2
      rw [denoteC_eq_scale_denoteList u, hs1, one_mul]
      rw [← denoteList_fixhertz u.bases u.powers, hfix, hg.2.1]
      simp only [List.map_cons, List.map_nil, denoteList]
      rw [hp1, Real.rpow_one]
      simp
    · rw [hcomp, if_neg hg]
      rw [denoteC_eq_scale_denoteList u]
      simp only [denoteC]
      rw [List.unzip_eq_map]
      rw [← hfix] at *
      rw [denoteList_fixhertz]

/-- fixhertz_comp on a one-pair composite with arbitrary scale. -/
theorem fixhertz_comp_single_scale (sc : ℝ) (b b' : UnitExpr) (p p' : ℝ)
    (hitem : fixhertz_item b p = (b', p')) :
    fixhertz_comp (.comp sc [b] [p]) =
      (if is_unity sc ∧ is_unity p' then b' else .comp sc [b'] [p']) := by
  unfold fixhertz_comp
  simp only [UnitExpr.bases, UnitExpr.powers, UnitExpr.scale, List.zipWith, hitem]
  by_cases h : is_unity sc ∧ is_unity p'
  · rw [if_pos ⟨h.1, trivial, h.2⟩, if_pos h]
  · rw [if_neg (fun hc => h ⟨hc.1, hc.2.2⟩), if_neg h]
    simp

/-- C6 counterexample: the unwrap guard uses an approximate unity test, so
fixhertz applied to the quantity 1 × ((1 + 1e-8) × second^1) silently drops
the scale 1 + 1e-8: the payload is kept, but the resulting bare unit denotes
a different magnitude than the original unit, contradicting exact magnitude
preservation. -/
theorem fixhertz_magnitude_counterexample :
    fixhertz (.quant ⟨.scalar 1, .comp (1 + 1e-8) [.named second] [1]⟩)
      = .quant ⟨.scalar 1, .named second⟩ ∧
    denoteC (.named second) ≠ denoteC (.comp (1 + 1e-8) [.named second] [1]) := by
  have hu : is_unity ((1 : ℝ) + 1e-8) := by norm_num [is_unity, is_close, abs_le]
  constructor
  · show PyVal.quant ⟨.scalar 1, fixhertz_comp (.comp (1 + 1e-8) [.named second] [1])⟩ = _
    rw [fixhertz_comp_single_scale _ _ _ _ _
        (fixhertz_item_nonneg (.named second) 1 (by norm_num)),
      if_pos ⟨hu, is_unity_one⟩]
  · intro h
    have h1 := congrArg Prod.fst h
    simp only [denoteC, denoteList] at h1
    rw [Real.rpow_one] at h1
    norm_num at h1

/-- C6 amended: fixhertz on a quantity always preserves the numeric payload
exactly, and preserves the unit's denoted magnitude (with Hz = 1/s exactly)
provided the normalization unwrap fires only exactly — i.e. whenever the
flipped pair list is a single pair whose scale and flipped power pass the
approximate unity test, that scale and power are exactly 1.  Without that
proviso the tolerance in the unity test can silently drop a scale or power
close to, but different from, 1 (see the counterexample). -/
theorem fixhertz_magnitude_preservation (pay : Payload) (u : UnitExpr)
    (hx : ∀ b2 p2, List.zipWith fixhertz_item u.bases u.powers = [(b2, p2)] →
        is_unity u.scale → is_unity p2 → (u.scale = 1 ∧ p2 = 1)) :
    fixhertz (.quant ⟨pay, u⟩) = .quant ⟨pay, fixhertz_comp u⟩ ∧
    denoteC (fixhertz_comp u) = denoteC u :=
  ⟨rfl, fixhertz_comp_denote u hx⟩

/-- C6 witness at payload 2 and unit 1 × second^-2 (the unwrap guard does not
fire there: the flipped power 2 is not close to 1). -/
theorem fixhertz_magnitude_preservation_witness :
    fixhertz (.quant ⟨.scalar 2, .comp 1 [.named second] [-(2 : ℝ)]⟩)
      = .quant ⟨.scalar 2, fixhertz_comp (.comp 1 [.named second] [-(2 : ℝ)])⟩ ∧
    denoteC (fixhertz_comp (.comp 1 [.named second] [-(2 : ℝ)])) =
      denoteC (.comp 1 [.named second] [-(2 : ℝ)]) := by
  apply fixhertz_magnitude_preservation
  intro b2 p2 hfix hs hp
  rw [show List.zipWith fixhertz_item
        (UnitExpr.comp 1 [.named second] [-(2 : ℝ)]).bases
        (UnitExpr.comp 1 [.named second] [-(2 : ℝ)]).powers
      = [(.named hertz, (2 : ℝ))] from by
    simp only [UnitExpr.bases, UnitExpr.powers, List.zipWith]
    rw [fixhertz_item_second_neg 2 (by norm_num)]] at hfix
  simp only [List.cons.injEq, Prod.mk.injEq, and_true] at hfix
  exfalso
  have h2 := not_is_unity_natCast 2 le_rfl
  norm_num at h2
  exact h2 (hfix.2 ▸ hp)

example : flip_pref 'k' = 'm' := by decide
example : flip_pref 'E' = 'a' := by decide
example : pref_to_expon 'k' = some 3 := by decide
example : expon_to_pref (-18) = some 'a' := by decide
example : expon_to_pref 0 = none := by decide
example : mkPrefUnit 'a' "s" = NamedUnit.attosecond := by decide
example : mkPrefUnit 'k' "g" = kilogram := by decide
example : mkPrefUnit 'k' "m" = kilometer := by decide

end
